import Mathlib

/-!
Verification development for the seat-map application (src/script.js).

The JavaScript source is shallowly embedded: each JS function that the
claims depend on is translated into an executable Lean definition of the
same name.  JS numbers that are known to be integers are modelled as Int;
the result of parseInt(parseFloat(s)) is modelled as Option Int, with
none standing for NaN.  JS arrays are lists, JS string-keyed objects and
Maps are association lists in key-insertion order, and the one place the
code can throw inside a try block is modelled with Except.
-/

/-- A registered pillar from PILLAR_LOCATIONS (script.js lines 6-11).
The JS fields are row, start, end; end is a Lean keyword so the field is
named stop here. -/
structure Pillar where
  row : String
  start : Int
  stop : Int
deriving DecidableEq

/-- The single source of truth for pillar locations (script.js lines 6-11). -/
def PILLAR_LOCATIONS : List Pillar :=
  [ { row := "E", start := 40, stop := 41 },
    { row := "E", start := 56, stop := 57 },
    { row := "E", start := 74, stop := 75 },
    { row := "E", start := 92, stop := 95 } ]

/-- The gap test used by segmentation (script.js lines 108-116, isPillarGap
inside findContiguousSegments).  Note that the JS function receives only the
two seat numbers: it has no row parameter and never consults pillar.row. -/
def isPillarGap (prev current : Int) : Bool :=
  PILLAR_LOCATIONS.any fun pillar =>
    prev + 1 == pillar.start && current == pillar.stop + 1

/-- The scanning loop of findContiguousSegments (script.js lines 118-136).
prev is numbers[i-1], currentSegment the open segment, segments the closed
ones; segments.push appends at the end. -/
def fcsGo : List Int → Int → List Int → List (List Int) → List (List Int)
  | [], _, currentSegment, segments => segments ++ [currentSegment]
  | n :: rest, prev, currentSegment, segments =>
    if n == prev + 1 || isPillarGap prev n then
      fcsGo rest n (currentSegment ++ [n]) segments
    else
      fcsGo rest n [n] (segments ++ [currentSegment])

/-- findContiguousSegments (script.js lines 101-139): sort the numbers, then
scan, extending the current segment when the next number is consecutive or
the gap exactly matches a pillar span.  The JS in-place numeric sort is
modelled with insertionSort, which is stable like Array.prototype.sort. -/
def findContiguousSegments (numbers : List Int) : List (List Int) :=
  match List.insertionSort (· ≤ ·) numbers with
  | [] => []
  | n :: rest => fcsGo rest n [n] []

/-- The integers from startSeat to endSeat inclusive, as produced by the JS
for loops over seat numbers. -/
def intRange (startSeat endSeat : Int) : List Int :=
  (List.range (endSeat + 1 - startSeat).toNat).map fun (i : Nat) => startSeat + (i : Int)

/-- getActualSeats (script.js lines 459-479): all seat numbers in the range
except those inside a pillar registered for this row.  Unlike isPillarGap,
this function does compare row with pillar.row. -/
def getActualSeats (row : String) (startSeat endSeat : Int) : List Int :=
  (intRange startSeat endSeat).filter fun seatNum =>
    ! PILLAR_LOCATIONS.any fun pillar =>
        row == pillar.row &&
          decide (pillar.start ≤ seatNum) && decide (seatNum ≤ pillar.stop)

/-- One range token of formatSeatRanges (script.js lines 498-511). -/
def fmtRange (rangeStart rangeEnd : Int) : String :=
  if rangeStart == rangeEnd then toString rangeStart
  else toString rangeStart ++ "-" ++ toString rangeEnd

/-- The range-accumulating loop of formatSeatRanges (script.js lines 492-506). -/
def fsrGo : List Int → Int → Int → List String → List String
  | [], rangeStart, rangeEnd, ranges => ranges ++ [fmtRange rangeStart rangeEnd]
  | n :: rest, rangeStart, rangeEnd, ranges =>
    if n == rangeEnd + 1 then fsrGo rest rangeStart n ranges
    else fsrGo rest n n (ranges ++ [fmtRange rangeStart rangeEnd])

/-- formatSeatRanges (script.js lines 482-514): sort the seat numbers and
compress runs of consecutive numbers into start-end tokens joined by
a comma and a space. -/
def formatSeatRanges (seats : List Int) : String :=
  match List.insertionSort (· ≤ ·) seats with
  | [] => ""
  | s :: rest => String.intercalate ", " (fsrGo rest s s [])

/-- A normalized seat as pushed into rowMap by transformSalesforceData
(script.js lines 81-90), in the finite-seat-number model used by the
filtering and segmentation layers. -/
structure NSeat where
  seatNumber : Int
  day : String
  event : String
  recordId : String
  opportunityId : String
  accountName : String
deriving DecidableEq

/-- A row entry of the hierarchical structure (script.js lines 74-78). -/
structure RowData where
  rowLabel : String
  accountName : String
  seats : List NSeat
deriving DecidableEq

/-- Placeholder seat used to model a JS array access that cannot miss in
the contexts where it is used (segmentSeats[0] on a nonempty list). -/
def dummyNSeat : NSeat :=
  { seatNumber := 0, day := "", event := "", recordId := "",
    opportunityId := "", accountName := "" }

/-- One step of grouping into a string-keyed JS object: the value is
appended to the list of the first entry with this key, or a new entry is
appended at the end.  Used for seatsByOpportunity (script.js lines 164-172)
and seatsBySection (script.js lines 869-880). -/
def addToGroups {α : Type} (key : α → String)
    (groups : List (String × List α)) (x : α) : List (String × List α) :=
  match groups with
  | [] => [(key x, [x])]
  | (k, l) :: rest =>
    if k = key x then (k, l ++ [x]) :: rest else (k, l) :: addToGroups key rest x

/-- Grouping a list into a string-keyed object, entries in key-insertion
order, each entry list in element order. -/
def groupByKey {α : Type} (key : α → String) (l : List α) : List (String × List α) :=
  l.foldl (addToGroups key) []

/-- The value stored under key k, or the empty list when the key is absent. -/
def groupGet {α : Type} (groups : List (String × List α)) (k : String) : List α :=
  match groups.find? (fun kv => kv.1 = k) with
  | some kv => kv.2
  | none => []

/-- The grouping key of seatsByOpportunity (script.js line 167):
seat.opportunityId, or a synthetic single-record key when it is empty. -/
def oppKey (seat : NSeat) : String :=
  if seat.opportunityId = "" then "single-" ++ seat.recordId else seat.opportunityId

/-- seatsByOpportunity (script.js lines 164-172). -/
def seatsByOpportunity (seats : List NSeat) : List (String × List NSeat) :=
  groupByKey oppKey seats

/-- A seat group emitted by processConnectedSeats (script.js lines 197-208). -/
structure SeatGroup where
  isConnected : Bool
  startSeat : Int
  endSeat : Int
  seatCount : Nat
  seats : List NSeat
  accountName : String
  day : String
  event : String
  opportunityId : String
  recordIds : List String
deriving DecidableEq

/-- A processed row (script.js lines 175-178). -/
structure ProcessedRow where
  rowLabel : String
  seatGroups : List SeatGroup
deriving DecidableEq

/-- The per-row body of processConnectedSeats (script.js lines 162-213):
group the seats by opportunity key, sort each group by seat number, cut the
seat numbers into contiguous segments, and emit one SeatGroup per segment
carrying the seats whose number lies in that segment.  segment[0] and
segment[segment.length - 1] are modelled with headD and getLastD, and
segmentSeats[0] with headD dummyNSeat; the lists are nonempty whenever the
JS reaches these accesses. -/
def processRow (row : RowData) : ProcessedRow :=
  { rowLabel := row.rowLabel,
    seatGroups := (seatsByOpportunity row.seats).flatMap fun kv =>
      let opportunitySeats :=
        List.insertionSort (fun a b => a.seatNumber ≤ b.seatNumber) kv.2
      let seatNumbers := opportunitySeats.map (fun s => s.seatNumber)
      (findContiguousSegments seatNumbers).map fun segment =>
        let segmentSeats :=
          opportunitySeats.filter (fun s => segment.contains s.seatNumber)
        let firstSeat := segmentSeats.headD dummyNSeat
        { isConnected := decide (segment.length > 1),
          startSeat := segment.headD 0,
          endSeat := segment.getLastD 0,
          seatCount := segment.length,
          seats := segmentSeats,
          accountName := firstSeat.accountName,
          day := firstSeat.day,
          event := firstSeat.event,
          opportunityId := firstSeat.opportunityId,
          recordIds := segmentSeats.map (fun s => s.recordId) } }

/-- processConnectedSeats (script.js lines 159-216): one processed row per
input row, in order. -/
def processConnectedSeats (data : List RowData) : List ProcessedRow :=
  data.map processRow

/-- The seat predicate of applyFilters (script.js lines 357-362): an empty
selected day or event is falsy in JS and matches every seat. -/
def seatMatches (selectedDay selectedEvent : String) (seat : NSeat) : Bool :=
  (selectedDay == "" || seat.day == selectedDay) &&
    (selectedEvent == "" || seat.event == selectedEvent)

/-- applyFilters, data part (script.js lines 354-370): keep the matching
seats of every row, then drop rows whose seat list became empty. -/
def applyFilters (seatData : List RowData) (selectedDay selectedEvent : String) :
    List RowData :=
  (seatData.map fun row =>
      { row with seats := row.seats.filter (seatMatches selectedDay selectedEvent) }).filter
    fun row => row.seats.length > 0

/-- Map.get on the data cache (script.js line 147): the JS Map keyed by
strings is modelled as an association list in insertion order. -/
def mapGet {α : Type} (cache : List (String × α)) (k : String) : Option α :=
  match cache.find? (fun kv => kv.1 = k) with
  | some kv => some kv.2
  | none => none

/-- Map.set (script.js line 152): replace the value of an existing key in
place, or append a new entry. -/
def mapSet {α : Type} (cache : List (String × α)) (k : String) (v : α) :
    List (String × α) :=
  match cache with
  | [] => [(k, v)]
  | (k₀, v₀) :: rest =>
    if k₀ = k then (k₀, v) :: rest else (k₀, v₀) :: mapSet rest k v

/-- getCachedProcessedData (script.js lines 142-155), with the cache passed
and returned explicitly.  The third component records whether this call ran
processConnectedSeats (cache miss) or returned a memoized value (hit). -/
def getCachedProcessedData (day event : String) (data : List RowData)
    (dataCache : List (String × List ProcessedRow)) :
    List ProcessedRow × List (String × List ProcessedRow) × Bool :=
  let cacheKey := day ++ "|" ++ event
  match mapGet dataCache cacheKey with
  | some v => (v, dataCache, false)
  | none =>
    let processedData := processConnectedSeats data
    (processedData, mapSet dataCache cacheKey processedData, true)

/-- A raw Salesforce record as consumed by transformSalesforceData.  The
dotted-path fields are flattened to plain names; an empty string models a
missing or otherwise falsy required field, which is what the truthiness
checks on lines 58-61 of script.js test.  The optional Opportunity.Id is
modelled with Option. -/
structure RawSeat where
  row : String
  seatNumberRaw : String
  day : String
  event : String
  id : String
  opportunityId : Option String
  accountName : String
deriving DecidableEq

/-- The argument of transformSalesforceData: either a JS array of records
or any non-array value (tagged by an arbitrary string), which fails the
Array.isArray check on line 47 of script.js. -/
inductive JSInput where
  | arr (rawData : List RawSeat) : JSInput
  | nonArray (tag : String) : JSInput
deriving DecidableEq

/-- Digit run to a natural number. -/
def digitsToNat (cs : List Char) : Nat :=
  cs.foldl (fun n c => n * 10 + (c.toNat - 48)) 0

/-- Models parseInt(parseFloat(s)) from script.js lines 82-84 on plain
decimal strings: skip leading spaces, read an optional sign and a decimal
number, and truncate toward zero; none models NaN, produced when no number
can be read.  Exponent notation is not needed by any input considered
here. -/
def jsParseSeatNumber (s : String) : Option Int :=
  let cs := s.toList.dropWhile (fun c => c = ' ')
  let signed : Bool × List Char :=
    match cs with
    | '-' :: rest => (true, rest)
    | '+' :: rest => (false, rest)
    | _ => (false, cs)
  let intDigits := signed.2.takeWhile Char.isDigit
  let afterInt := signed.2.dropWhile Char.isDigit
  if intDigits.isEmpty then
    match afterInt with
    | '.' :: fracPart =>
      if (fracPart.takeWhile Char.isDigit).isEmpty then none
      else some 0
    | _ => none
  else
    let n : Int := Int.ofNat (digitsToNat intDigits)
    some (if signed.1 then -n else n)

/-- A seat object as pushed by transformSalesforceData (script.js lines
81-90); seatNumber is Option Int because parseInt(parseFloat(...)) can be
NaN. -/
structure SfSeat where
  seatNumber : Option Int
  day : String
  event : String
  recordId : String
  opportunityId : String
  accountName : String
deriving DecidableEq

/-- A row of the transformed hierarchical structure at the normalization
layer. -/
structure SfRow where
  rowLabel : String
  accountName : String
  seats : List SfSeat
deriving DecidableEq

/-- The seat object built on script.js lines 81-90. -/
def mkSfSeat (seat : RawSeat) : SfSeat :=
  { seatNumber := jsParseSeatNumber seat.seatNumberRaw,
    day := seat.day,
    event := seat.event,
    recordId := seat.id,
    opportunityId := seat.opportunityId.getD "",
    accountName := seat.accountName }

/-- rowMap.get(row).seats.push(...) together with the rowMap.set on first
sight of a row (script.js lines 73-90); the Map iterates in key-insertion
order, modelled by an ordered list of rows. -/
def addSeatToRowMap (rowMap : List SfRow) (seat : RawSeat) : List SfRow :=
  match rowMap with
  | [] =>
    [{ rowLabel := seat.row, accountName := seat.accountName,
       seats := [mkSfSeat seat] }]
  | r :: rest =>
    if r.rowLabel = seat.row then { r with seats := r.seats ++ [mkSfSeat seat] } :: rest
    else r :: addSeatToRowMap rest seat

/-- The rawData.forEach loop of transformSalesforceData (script.js lines
56-91).  On a record whose row or seat-number field is falsy the code calls
Logger.warn — but the Logger object (script.js lines 14-26) defines only
log and error, so this call throws a TypeError, modelled as Except.error,
which aborts the whole loop. -/
def transformLoop : List RawSeat → List SfRow → Except String (List SfRow)
  | [], rowMap => Except.ok rowMap
  | seat :: rest, rowMap =>
    if seat.row = "" ∨ seat.seatNumberRaw = "" then
      Except.error "TypeError: Logger.warn is not a function"
    else
      transformLoop rest (addSeatToRowMap rowMap seat)

/-- transformSalesforceData (script.js lines 46-98): non-array input is
rejected up front with an empty result; otherwise the forEach runs inside
the try block and the catch on lines 94-97 turns any thrown error into an
empty result as well. -/
def transformSalesforceData : JSInput → List SfRow
  | JSInput.nonArray _ => []
  | JSInput.arr rawData =>
    match transformLoop rawData [] with
    | Except.ok rows => rows
    | Except.error _ => []

/-- A segment produced by findSeatSegments (script.js lines 889-907); the
JS fields are start and end. -/
structure Seg where
  start : Int
  stop : Int
deriving DecidableEq

/-- The segment-accumulating forEach of findSeatSegments (script.js lines
892-903) after the first seat opened the current segment. -/
def splitRunsGo : List Int → Seg → List Seg → List Seg
  | [], currentSegment, segments => segments ++ [currentSegment]
  | n :: rest, currentSegment, segments =>
    if n = currentSegment.stop + 1 then
      splitRunsGo rest { currentSegment with stop := n } segments
    else
      splitRunsGo rest { start := n, stop := n } (segments ++ [currentSegment])

/-- Segments of consecutive seat numbers within one section (script.js
lines 883-909): currentSegment starts null, so an empty seat list yields no
segment. -/
def splitRuns : List Int → List Seg
  | [] => []
  | n :: rest => splitRunsGo rest { start := n, stop := n } []

/-- The seats of the range that exist in the document, with the section key
each one resolves to (script.js lines 850-865).  The page outside script.js
is represented by dom: dom rowLabel n = some sec when a seat element with
data-seat-id rowLabel++n exists and resolves to section key sec (the JS
computes "unknown" when the element has no .seat-section ancestor), and
none when no such element exists. -/
def existingSeats (dom : String → Int → Option String) (rowLabel : String)
    (startSeat endSeat : Int) : List (Int × String) :=
  (intRange startSeat endSeat).filterMap fun i =>
    (dom rowLabel i).map fun sec => (i, sec)

/-- findSeatSegments (script.js lines 847-912): group the existing seats of
the range by section key, sort each section by seat number, and cut each
section into runs of consecutive numbers. -/
def findSeatSegments (dom : String → Int → Option String) (rowLabel : String)
    (startSeat endSeat : Int) : List Seg :=
  (groupByKey Prod.snd (existingSeats dom rowLabel startSeat endSeat)).flatMap
    fun kv => splitRuns (List.insertionSort (· ≤ ·) (kv.2.map Prod.fst))

/-- The connected-seats element created by renderConnectedSeats, described
by its data attributes (script.js lines 797-828). -/
structure ConnectedEl where
  row : String
  startSeat : Int
  endSeat : Int
  account : String
  day : String
  event : String
  opportunityId : String
  splitGroup : Bool
  originalStart : Option Int
  originalEnd : Option Int
  title : String
deriving DecidableEq

/-- renderConnectedSeats (script.js lines 767-844) as the list of
connected-seats elements it creates: one per segment of findSeatSegments
whose first seat exists in the document; when the group was split into more
than one segment each element carries data-split-group true and the
original full span in data-original-start and data-original-end. -/
def renderConnectedSeats (dom : String → Int → Option String) (rowLabel : String)
    (group : SeatGroup) : List ConnectedEl :=
  let seatSegments := findSeatSegments dom rowLabel group.startSeat group.endSeat
  seatSegments.filterMap fun segment =>
    if (dom rowLabel segment.start).isSome then
      some { row := rowLabel,
             startSeat := segment.start,
             endSeat := segment.stop,
             account := group.accountName,
             day := group.day,
             event := group.event,
             opportunityId := group.opportunityId,
             splitGroup := decide (seatSegments.length > 1),
             originalStart :=
               if seatSegments.length > 1 then some group.startSeat else none,
             originalEnd :=
               if seatSegments.length > 1 then some group.endSeat else none,
             title :=
               if seatSegments.length > 1 then
                 group.accountName ++ " (Part of " ++ toString group.startSeat ++
                   "-" ++ toString group.endSeat ++ ")"
               else
                 group.accountName ++ " (" ++ toString segment.start ++ "-" ++
                   toString segment.stop ++ ")" }
    else none

/-- The selected-seat object stored by AppState.selectSeat.  The click
handler (script.js lines 587-645) builds objects of different shapes for
connected groups and for individual seats; the union of their fields is
modelled in one structure, with empty or none at fields a given shape does
not set (reading them in JS yields a falsy undefined). -/
structure SelectedSeat where
  isConnected : Bool
  accountName : String
  row : String
  startSeat : Int
  endSeat : Int
  seatCount : Nat
  day : String
  eventType : String
  opportunityId : String
  isMultiSegment : Bool
  allSeatNumbers : Option (List Int)
  seatId : String
  seatNumber : String
  account : String
  sfId : String
deriving DecidableEq

/-- One detail line of the panel (the template literal used throughout
updateSeatDetails, script.js lines 949-1026). -/
def detailRow (label value : String) : String :=
  "<div class=\"detail-row\"><span class=\"detail-label\">" ++ label ++
    ":</span>" ++ value ++ "</div>"

/-- The deduplication by a JS Set (script.js lines 584 and 1003): keep the
first occurrence of each number. -/
def jsSetDedup (l : List Int) : List Int :=
  l.foldl (fun acc n => if acc.contains n then acc else acc ++ [n]) []

/-- updateSeatDetails (script.js lines 936-1031) as the html string that is
assigned to the detail panel.  splitGroupExists models the querySelector
test for a rendered split-group element of the given opportunity id, and
connectedSeatsByOpp the querySelectorAll over rendered connected-seats
elements, each given as (data-row, data-start-seat, data-end-seat).  Note
the function builds html only when selectedSeat.isConnected is truthy;
there is no branch for an individual (non-connected) seat, so html remains
the empty string in that case. -/
def updateSeatDetails (splitGroupExists : String → Bool)
    (connectedSeatsByOpp : String → List (String × Int × Int))
    (selectedSeat : Option SelectedSeat) : String :=
  match selectedSeat with
  | none => "<p>Select a group to view details</p>"
  | some s =>
    if s.isConnected then
      let header := detailRow "Account" s.accountName ++ detailRow "Row" s.row
      let seatInfo : List Int × Nat :=
        match s.isMultiSegment, s.allSeatNumbers with
        | true, some allNums => (allNums, allNums.length)
        | _, _ =>
          if s.opportunityId ≠ "" ∧ splitGroupExists s.opportunityId then
            let allSeatNumbers :=
              ((connectedSeatsByOpp s.opportunityId).filter
                  (fun seg => seg.1 = s.row)).flatMap
                fun seg => getActualSeats seg.1 seg.2.1 seg.2.2
            let actualSeats :=
              List.insertionSort (· ≤ ·) (jsSetDedup allSeatNumbers)
            (actualSeats, actualSeats.length)
          else
            let actualSeats := getActualSeats s.row s.startSeat s.endSeat
            (actualSeats, actualSeats.length)
      let seatRanges := formatSeatRanges seatInfo.1
      header ++
        detailRow "Seats" (seatRanges ++ " (" ++ toString seatInfo.2 ++ " seats)") ++
        detailRow "Day" s.day ++
        detailRow "Event Type" s.eventType ++
        (if s.opportunityId ≠ "" then detailRow "Opportunity ID" s.opportunityId
         else "")
    else ""

/-- A booked seat of row E used in the concrete scenarios: all four seats
belong to one opportunity on one day and event. -/
def exSeat (n : Int) : NSeat :=
  { seatNumber := n, day := "Day 1 - Friday", event := "Rodeo",
    recordId := "r" ++ toString n, opportunityId := "OPP1",
    accountName := "Acme" }

/-- Row E with the booking seats 38, 39, 42, 43 of the specification
scenario for the pillar at seats 40-41. -/
def exRowE : RowData :=
  { rowLabel := "E", accountName := "Acme",
    seats := [exSeat 38, exSeat 39, exSeat 42, exSeat 43] }

/-- Two distinct seat records of one opportunity that share seat number 10. -/
def dupA : NSeat :=
  { seatNumber := 10, day := "Day 1 - Friday", event := "Rodeo",
    recordId := "rA", opportunityId := "O1", accountName := "Acme" }

/-- Second seat record with the same seat number as dupA. -/
def dupB : NSeat :=
  { seatNumber := 10, day := "Day 1 - Friday", event := "Rodeo",
    recordId := "rB", opportunityId := "O1", accountName := "Acme" }

/-- A row in which one booking carries two seat records with the same seat
number. -/
def dupRow : RowData :=
  { rowLabel := "C", accountName := "Acme", seats := [dupA, dupB] }

/-- A row whose seat list is already empty before filtering. -/
def emptySeatRow : RowData :=
  { rowLabel := "A", accountName := "Acme", seats := [] }

/-- A page for the section-split scenario: in row B, seats 40-44 exist in
one section and seats 46-50 in another; seat 45 does not exist at all. -/
def c4Dom : String → Int → Option String := fun rowLabel n =>
  if rowLabel = "B" ∧ 40 ≤ n ∧ n ≤ 44 then some "0"
  else if rowLabel = "B" ∧ 46 ≤ n ∧ n ≤ 50 then some "1"
  else none

/-- A connected group spanning 44 to 46 in row B, crossing the section
boundary of c4Dom. -/
def c4Group : SeatGroup :=
  { isConnected := true, startSeat := 44, endSeat := 46, seatCount := 2,
    seats := [], accountName := "Acme", day := "Day 1 - Friday",
    event := "Rodeo", opportunityId := "OPP9", recordIds := [] }

/-- A valid raw record for row C, seat 32. -/
def rawGood : RawSeat :=
  { row := "C", seatNumberRaw := "32.0", day := "Day 1 - Friday",
    event := "Rodeo", id := "SF1", opportunityId := some "OPP1",
    accountName := "Acme" }

/-- A raw record whose row field is missing (falsy). -/
def rawBad : RawSeat :=
  { row := "", seatNumberRaw := "33.0", day := "Day 1 - Friday",
    event := "Rodeo", id := "SF2", opportunityId := some "OPP1",
    accountName := "Acme" }

/-- A raw record whose seat-number field is a non-numeric string, so that
parseInt(parseFloat(...)) is NaN. -/
def rawNaN : RawSeat :=
  { row := "A", seatNumberRaw := "abc", day := "Day 1 - Friday",
    event := "Rodeo", id := "SF3", opportunityId := some "OPP2",
    accountName := "Beta" }

/-- The selected seat built by the individual-seat branch of the click
handler (script.js lines 629-645): no isConnected field is set there, which
reads as falsy. -/
def singleSeatSelection : SelectedSeat :=
  { isConnected := false, accountName := "", row := "C", startSeat := 0,
    endSeat := 0, seatCount := 0, day := "Day 1 - Friday",
    eventType := "Rodeo", opportunityId := "", isMultiSegment := false,
    allSeatNumbers := none, seatId := "C32", seatNumber := "32",
    account := "Acme", sfId := "SF1" }

/-- C1: the claim states that the obstruction-gap test used by segmentation
returns true iff some registered pillar whose row equals the given row
spans exactly the gap, so that a pillar registered for a different row
never bridges a gap in that row.  The code diverges: isPillarGap receives
no row at all, so the row-E pillar at seats 40-41 bridges the gap between
39 and 42 in every row.  No pillar is registered for row A, yet a row-A
booking of seats 39 and 42 is merged into a single segment. -/
theorem c1_pillar_gap_ignores_row :
    isPillarGap 39 42 = true ∧
    (∀ p ∈ PILLAR_LOCATIONS, p.row ≠ "A") ∧
    findContiguousSegments [39, 42] = [[39, 42]] := by decide

/-- C3: for the booking whose row-E seats are exactly 38, 39, 42, 43, with
the registered pillar from seat 40 to 41, segmentation yields exactly one
connected seat group spanning startSeat 38 to endSeat 43, the addressable
(non-pillar) seats of that span number 4, and their display range string is
"38-39, 42-43". -/
theorem c3_pillar_bridged_segment_scenario :
    (processConnectedSeats [exRowE]).map
        (fun r => r.seatGroups.map fun g => (g.isConnected, g.startSeat, g.endSeat)) =
      [[(true, 38, 43)]] ∧
    (getActualSeats "E" 38 43).length = 4 ∧
    formatSeatRanges (getActualSeats "E" 38 43) = "38-39, 42-43" := by decide

/-- C5: the claim states that a record missing its row or seat-number field
is skipped while the rest of the batch is still normalized.  The code
diverges: the skip branch calls Logger.warn, which the Logger object does
not define, so the call throws and the surrounding catch returns the empty
list — one bad record empties the whole batch.  The same good record alone
normalizes fine. -/
theorem c5_missing_field_empties_batch :
    transformSalesforceData (JSInput.arr [rawGood, rawBad]) = [] ∧
    transformSalesforceData (JSInput.arr [rawBad, rawGood]) = [] ∧
    transformSalesforceData (JSInput.arr [rawGood]) =
      [{ rowLabel := "C", accountName := "Acme",
         seats := [{ seatNumber := some 32, day := "Day 1 - Friday",
                     event := "Rodeo", recordId := "SF1",
                     opportunityId := "OPP1", accountName := "Acme" }] }] := by
  decide

/-- C6: the claim states that a record whose seat-number field does not
parse as a finite float is excluded from segmentation.  The code diverges:
the validation on script.js lines 58-61 only tests truthiness of the raw
string, so the non-numeric "abc" passes, parseInt(parseFloat("abc")) is NaN
(modelled none), and the seat is kept in the normalized output that flows
into sorting and adjacency comparison. -/
theorem c6_nan_seat_not_excluded :
    transformSalesforceData (JSInput.arr [rawNaN]) =
      [{ rowLabel := "A", accountName := "Beta",
         seats := [{ seatNumber := none, day := "Day 1 - Friday",
                     event := "Rodeo", recordId := "SF3",
                     opportunityId := "OPP2", accountName := "Beta" }] }] := by
  decide

/-- C7: the claim states that selecting a non-connected (single-seat)
segment produces a detail view reporting the seat number, day, event,
account and record identifier.  The code diverges: updateSeatDetails only
builds html when selectedSeat.isConnected is truthy and has no branch for
an individual seat, so the detail panel content is set to the empty string,
whatever the page contains. -/
theorem c7_single_seat_details_empty :
    ∀ (splitGroupExists : String → Bool)
      (connectedSeatsByOpp : String → List (String × Int × Int)),
      updateSeatDetails splitGroupExists connectedSeatsByOpp
        (some singleSeatSelection) = "" :=
  fun _ _ => rfl

/-- C10: for every input value that is not an array,
transformSalesforceData returns the empty list rather than throwing, so the
normalization entry point is total over malformed input. -/
theorem c10_non_array_returns_empty :
    ∀ tag : String, transformSalesforceData (JSInput.nonArray tag) = [] :=
  fun _ => rfl

/-- C2, counterexample: with two seat records of one booking sharing seat
number 10, the record dupA is carried by two distinct emitted seat groups
even though it occurs once in the row, so the multiset union of the emitted
groups does not equal the seats of the row. -/
theorem c2_duplicate_seat_counterexample :
    ((processRow dupRow).seatGroups.countP fun g => g.seats.contains dupA) = 2 ∧
    ((processRow dupRow).seatGroups.flatMap SeatGroup.seats).count dupA = 2 ∧
    dupRow.seats.count dupA = 1 := by decide

/-- C9, counterexample: filtering with both filters empty removes no seat,
but a row whose seat list was already empty is still dropped by the
row-level filter, so applyFilters data "" "" is not always equal to data. -/
theorem c9_empty_row_counterexample :
    applyFilters [emptySeatRow] "" "" = [] ∧
    applyFilters [emptySeatRow] "" "" ≠ [emptySeatRow] := by decide

theorem mapGet_mapSet_self {α : Type} (c : List (String × α)) (k : String) (v : α) :
    mapGet (mapSet c k v) k = some v := by
  induction c with
  | nil => simp [mapGet, mapSet, List.find?]
  | cons kv rest ih =>
    obtain ⟨k₀, v₀⟩ := kv
    by_cases h : k₀ = k
    · simp [mapSet, h, mapGet, List.find?]
    · simpa [mapSet, h, mapGet, List.find?] using ih

/-- C8: for a fixed (day, event) key not yet cached, calling
getCachedProcessedData and then calling it again on the resulting cache
with no intervening data change returns the same segment-list value both
times, and processConnectedSeats runs exactly once: on the first call (a
miss) and not on the second (a hit). -/
theorem c8_cache_hit_no_recompute (day event : String) (data : List RowData)
    (dataCache : List (String × List ProcessedRow))
    (h : mapGet dataCache (day ++ "|" ++ event) = none) :
    (getCachedProcessedData day event data dataCache).1 =
      (getCachedProcessedData day event data
        (getCachedProcessedData day event data dataCache).2.1).1 ∧
    (getCachedProcessedData day event data dataCache).2.2 = true ∧
    (getCachedProcessedData day event data
      (getCachedProcessedData day event data dataCache).2.1).2.2 = false := by
  simp only [getCachedProcessedData, h, mapGet_mapSet_self]
  exact ⟨trivial, trivial, trivial⟩

/-- C8, witness: the theorem applied to an initially empty cache, the key
Day 1 - Friday with event Rodeo, and the row-E example data. -/
theorem c8_cache_hit_no_recompute_witness :
    mapGet ([] : List (String × List ProcessedRow))
        ("Day 1 - Friday" ++ "|" ++ "Rodeo") = none ∧
    ((getCachedProcessedData "Day 1 - Friday" "Rodeo" [exRowE] []).1 =
        (getCachedProcessedData "Day 1 - Friday" "Rodeo" [exRowE]
          (getCachedProcessedData "Day 1 - Friday" "Rodeo" [exRowE] []).2.1).1 ∧
      (getCachedProcessedData "Day 1 - Friday" "Rodeo" [exRowE] []).2.2 = true ∧
      (getCachedProcessedData "Day 1 - Friday" "Rodeo" [exRowE]
        (getCachedProcessedData "Day 1 - Friday" "Rodeo" [exRowE] []).2.1).2.2 =
        false) :=
  ⟨by decide, c8_cache_hit_no_recompute "Day 1 - Friday" "Rodeo" [exRowE] [] (by decide)⟩

theorem seatMatches_empty_true (s : NSeat) : seatMatches "" "" s = true := by
  simp [seatMatches]

/-- C9 (amended): filtering is a pure narrowing operation: the seats of the
filtered data are exactly the seats of the input that satisfy the day and
event predicate (so every output seat occurs in the input), and provided
every row of the input has at least one seat — as every output of
normalization does — filtering with both filters empty is the identity.  A
row that was already empty would be dropped (see the counterexample). -/
theorem c9_filter_narrowing (seatData : List RowData)
    (selectedDay selectedEvent : String) :
    (applyFilters seatData selectedDay selectedEvent).flatMap RowData.seats =
      (seatData.flatMap RowData.seats).filter
        (seatMatches selectedDay selectedEvent) ∧
    ((∀ row ∈ seatData, row.seats ≠ []) → applyFilters seatData "" "" = seatData) := by
  constructor
  · induction seatData with
    | nil => simp [applyFilters]
    | cons row rest ih =>
      simp only [applyFilters, List.map_cons, List.filter_cons] at ih ⊢
      by_cases hf :
          (row.seats.filter (seatMatches selectedDay selectedEvent)).length > 0
      · simpa [hf, List.filter_append] using ih
      · have hempty : row.seats.filter (seatMatches selectedDay selectedEvent) = [] := by
          cases hl : row.seats.filter (seatMatches selectedDay selectedEvent) with
          | nil => rfl
          | cons a l => rw [hl] at hf; simp at hf
        simpa [hf, List.filter_append, hempty] using ih
  · intro h
    unfold applyFilters
    have hmap :
        seatData.map
            (fun row => { row with seats := row.seats.filter (seatMatches "" "") }) =
          seatData := by
      have : ∀ row ∈ seatData,
          ({ row with seats := row.seats.filter (seatMatches "" "") } : RowData) = row := by
        intro row _
        have : row.seats.filter (seatMatches "" "") = row.seats :=
          List.filter_eq_self.mpr fun a _ => seatMatches_empty_true a
        simp [this]
      calc seatData.map
              (fun row => { row with seats := row.seats.filter (seatMatches "" "") })
          = seatData.map id := List.map_congr_left this
        _ = seatData := List.map_id seatData
    rw [hmap]
    exact List.filter_eq_self.mpr fun row hrow => by
      simpa [List.length_pos] using h row hrow

/-- C9, witness: the theorem applied to the one-row example data, whose row
is nonempty, so filtering with empty filters is the identity there. -/
theorem c9_filter_narrowing_witness :
    (∀ row ∈ [exRowE], row.seats ≠ []) ∧
    applyFilters [exRowE] "" "" = [exRowE] :=
  ⟨by decide, (c9_filter_narrowing [exRowE] "" "").2 (by decide)⟩

theorem contains_iff_mem {α : Type} [BEq α] [LawfulBEq α] (l : List α) (a : α) :
    l.contains a = true ↔ a ∈ l := List.elem_iff

theorem flatMap_addToGroups_perm {α : Type} (key : α → String)
    (gs : List (String × List α)) (x : α) :
    ((addToGroups key gs x).flatMap fun kv => kv.2).Perm
      ((gs.flatMap fun kv => kv.2) ++ [x]) := by
  induction gs with
  | nil => simp [addToGroups]
  | cons kv rest ih =>
    obtain ⟨k, l⟩ := kv
    by_cases h : k = key x
    · simp only [addToGroups, if_pos h, List.flatMap_cons, List.append_assoc]
      exact List.Perm.append_left l (List.perm_append_comm)
    · simp only [addToGroups, if_neg h, List.flatMap_cons, List.append_assoc]
      exact List.Perm.append_left l ih

theorem flatMap_foldl_addToGroups_perm {α : Type} (key : α → String)
    (l : List α) :
    ∀ gs : List (String × List α),
      (((l.foldl (addToGroups key) gs).flatMap fun kv => kv.2)).Perm
        ((gs.flatMap fun kv => kv.2) ++ l) := by
  induction l with
  | nil => intro gs; simp
  | cons x rest ih =>
    intro gs
    have h1 := ih (addToGroups key gs x)
    have h2 : (((addToGroups key gs x).flatMap fun kv => kv.2) ++ rest).Perm
        (((gs.flatMap fun kv => kv.2) ++ [x]) ++ rest) :=
      (flatMap_addToGroups_perm key gs x).append_right rest
    simp only [List.foldl_cons]
    refine h1.trans (h2.trans ?_)
    simp [List.append_assoc]

theorem flatMap_groupByKey_perm {α : Type} (key : α → String) (l : List α) :
    ((groupByKey key l).flatMap fun kv => kv.2).Perm l := by
  simpa using flatMap_foldl_addToGroups_perm key l []

theorem fcsGo_flatten (xs : List Int) :
    ∀ (prev : Int) (cur : List Int) (segs : List (List Int)),
      (fcsGo xs prev cur segs).flatten = segs.flatten ++ cur ++ xs := by
  induction xs with
  | nil => intro prev cur segs; simp [fcsGo]
  | cons x rest ih =>
    intro prev cur segs
    by_cases h : (x == prev + 1 || isPillarGap prev x) = true
    · rw [fcsGo, if_pos h, ih]
      simp [List.append_assoc]
    · rw [fcsGo, if_neg h, ih]
      simp [List.flatten_append, List.append_assoc]

theorem findContiguousSegments_flatten (numbers : List Int) :
    (findContiguousSegments numbers).flatten =
      List.insertionSort (· ≤ ·) numbers := by
  unfold findContiguousSegments
  cases h : List.insertionSort (· ≤ ·) numbers with
  | nil => simp
  | cons n rest => simp [fcsGo_flatten]

theorem countP_contains_eq_zero (segs : List (List Int)) (x : Int)
    (h : x ∉ segs.flatten) : (segs.countP fun seg => seg.contains x) = 0 := by
  rw [List.countP_eq_zero]
  intro seg hseg hc
  exact h (List.mem_flatten.mpr ⟨seg, hseg, (contains_iff_mem seg x).mp hc⟩)

theorem countP_contains_eq_one (segs : List (List Int)) (x : Int)
    (hnodup : segs.flatten.Nodup) (hmem : x ∈ segs.flatten) :
    (segs.countP fun seg => seg.contains x) = 1 := by
  induction segs with
  | nil => simp at hmem
  | cons seg rest ih =>
    simp only [List.flatten_cons] at hnodup hmem
    obtain ⟨hseg, hrest, hdisj⟩ := List.nodup_append.mp hnodup
    rw [List.countP_cons]
    rcases List.mem_append.mp hmem with hx | hx
    · have hnot : x ∉ rest.flatten := fun hcon => hdisj hx hcon
      rw [countP_contains_eq_zero rest x hnot]
      simp [hx]
    · have hnot : x ∉ seg := fun hcon => hdisj hcon hx
      rw [ih hrest hx]
      simp [hnot]

theorem count_filter_eq {α : Type} [DecidableEq α] (p : α → Bool) (s : α)
    (l : List α) :
    (l.filter p).count s = if p s = true then l.count s else 0 := by
  by_cases h : p s = true
  · rw [if_pos h, List.count_filter h]
  · rw [if_neg h, List.count_eq_zero]
    intro hmem
    exact h (List.mem_filter.mp hmem).2

theorem sum_count_if_contains (segs : List (List Int)) (x : Int) (c : Nat) :
    (segs.map fun seg => if seg.contains x = true then c else 0).sum =
      (segs.countP fun seg => seg.contains x) * c := by
  induction segs with
  | nil => simp
  | cons seg rest ih =>
    rw [List.map_cons, List.sum_cons, ih, List.countP_cons]
    by_cases h : seg.contains x = true
    · rw [if_pos h, if_pos h, Nat.add_mul, Nat.one_mul, Nat.add_comm]
    · rw [if_neg h, if_neg h]
      simp

theorem group_partition_perm (oseats : List NSeat)
    (h : (oseats.map NSeat.seatNumber).Nodup) :
    ((findContiguousSegments
          ((List.insertionSort (fun a b => a.seatNumber ≤ b.seatNumber) oseats).map
            fun s => s.seatNumber)).flatMap
        fun segment =>
          (List.insertionSort (fun a b => a.seatNumber ≤ b.seatNumber) oseats).filter
            fun s => segment.contains s.seatNumber).Perm oseats := by
  have hperm : (List.insertionSort (fun a b => a.seatNumber ≤ b.seatNumber) oseats).Perm
      oseats := List.perm_insertionSort _ _
  set sorted := List.insertionSort (fun a b => a.seatNumber ≤ b.seatNumber) oseats
  set nums := sorted.map fun s => s.seatNumber with hnums
  have hnumsperm : nums.Perm (oseats.map NSeat.seatNumber) := hperm.map _
  have hnodup : nums.Nodup := hnumsperm.nodup_iff.mpr h
  set segs := findContiguousSegments nums with hsegs
  have hflatten : segs.flatten.Perm nums := by
    rw [hsegs, findContiguousSegments_flatten]
    exact List.perm_insertionSort _ _
  have hfnodup : segs.flatten.Nodup := hflatten.nodup_iff.mpr hnodup
  refine (List.perm_iff_count.mpr ?_).trans hperm
  intro s
  rw [List.flatMap_def, List.count_flatten, List.map_map]
  have hmapeq :
      (segs.map (List.count s ∘ fun segment =>
          sorted.filter fun t => segment.contains t.seatNumber)) =
        segs.map fun segment =>
          if segment.contains s.seatNumber = true then sorted.count s else 0 :=
    List.map_congr_left fun seg _ => count_filter_eq _ s sorted
  rw [hmapeq, sum_count_if_contains]
  by_cases hs : s ∈ sorted
  · have hnum : s.seatNumber ∈ nums := by
      rw [hnums]
      exact List.mem_map_of_mem _ hs
    rw [countP_contains_eq_one segs s.seatNumber hfnodup (hflatten.mem_iff.mpr hnum)]
    exact Nat.one_mul _
  · have : sorted.count s = 0 := List.count_eq_zero.mpr hs
    rw [this, Nat.mul_zero]

theorem flatMap_congr_perm {α β : Type} (E : List α) (f g : α → List β)
    (h : ∀ x ∈ E, (f x).Perm (g x)) : (E.flatMap f).Perm (E.flatMap g) := by
  induction E with
  | nil => simp
  | cons x rest ih =>
    rw [List.flatMap_cons, List.flatMap_cons]
    exact (h x (List.mem_cons_self x rest)).append
      (ih fun y hy => h y (List.mem_cons_of_mem x hy))

theorem processRow_seats_perm (row : RowData)
    (h : ∀ kv ∈ seatsByOpportunity row.seats, (kv.2.map NSeat.seatNumber).Nodup) :
    ((processRow row).seatGroups.flatMap SeatGroup.seats).Perm row.seats := by
  simp only [processRow]
  rw [List.flatMap_assoc]
  refine List.Perm.trans ?_ (flatMap_groupByKey_perm oppKey row.seats)
  refine flatMap_congr_perm _ _ _ fun kv hkv => ?_
  rw [List.flatMap_map]
  exact group_partition_perm kv.2 (h kv hkv)

/-- C2 (amended): for every row in the filtered input in which each booking
group has pairwise distinct seat numbers, the multiset union of the seats
carried by all seat groups emitted by processConnectedSeats for that row
equals exactly the set of seats of that row: no seat is lost and no seat
appears in more than one emitted group.  (With duplicate seat numbers
within one booking the code does duplicate seats across groups, see the
counterexample.) -/
theorem c2_segments_partition_row_seats (data : List RowData)
    (h : ∀ row ∈ data, ∀ kv ∈ seatsByOpportunity row.seats,
      (kv.2.map NSeat.seatNumber).Nodup) :
    List.Forall₂ (fun row prow =>
        (prow.seatGroups.flatMap SeatGroup.seats).Perm row.seats)
      data (processConnectedSeats data) := by
  induction data with
  | nil => exact List.Forall₂.nil
  | cons row rest ih =>
    exact List.Forall₂.cons
      (processRow_seats_perm row (h row (List.mem_cons_self row rest)))
      (ih fun r hr kv hkv => h r (List.mem_cons_of_mem row hr) kv hkv)

/-- C2, witness: the amended theorem applied to the row-E example data,
whose single booking has the pairwise distinct seat numbers 38, 39, 42,
43. -/
theorem c2_segments_partition_row_seats_witness :
    (∀ row ∈ [exRowE], ∀ kv ∈ seatsByOpportunity row.seats,
        (kv.2.map NSeat.seatNumber).Nodup) ∧
    List.Forall₂ (fun row prow =>
        (prow.seatGroups.flatMap SeatGroup.seats).Perm row.seats)
      [exRowE] (processConnectedSeats [exRowE]) :=
  ⟨by decide, c2_segments_partition_row_seats [exRowE] (by decide)⟩

theorem groupGet_nil {α : Type} (k : String) :
    groupGet ([] : List (String × List α)) k = [] := rfl

theorem groupGet_cons_eq {α : Type} (k₀ : String) (l₀ : List α)
    (rest : List (String × List α)) (k : String) (h : k₀ = k) :
    groupGet ((k₀, l₀) :: rest) k = l₀ := by
  unfold groupGet
  rw [List.find?_cons_of_pos _ (by simpa using h)]

theorem groupGet_cons_ne {α : Type} (k₀ : String) (l₀ : List α)
    (rest : List (String × List α)) (k : String) (h : ¬ k₀ = k) :
    groupGet ((k₀, l₀) :: rest) k = groupGet rest k := by
  unfold groupGet
  rw [List.find?_cons_of_neg _ (by simpa using h)]

theorem groupGet_addToGroups {α : Type} (key : α → String)
    (gs : List (String × List α)) (x : α) (k : String) :
    groupGet (addToGroups key gs x) k =
      if key x = k then groupGet gs k ++ [x] else groupGet gs k := by
  induction gs with
  | nil =>
    simp only [addToGroups]
    by_cases h : key x = k
    · rw [groupGet_cons_eq _ _ _ _ h, if_pos h, groupGet_nil]
      rfl
    · rw [groupGet_cons_ne _ _ _ _ h, if_neg h]
  | cons kv rest ih =>
    obtain ⟨k₀, l₀⟩ := kv
    simp only [addToGroups]
    by_cases h : k₀ = key x
    · rw [if_pos h]
      by_cases hk : k₀ = k
      · have hxk : key x = k := h.symm.trans hk
        rw [groupGet_cons_eq _ _ _ _ hk, if_pos hxk, groupGet_cons_eq _ _ _ _ hk]
      · have hxk : ¬ key x = k := fun hc => hk (h.trans hc)
        rw [groupGet_cons_ne _ _ _ _ hk, if_neg hxk, groupGet_cons_ne _ _ _ _ hk]
    · rw [if_neg h]
      by_cases hk : k₀ = k
      · have hxk : ¬ key x = k := fun hc => h (hk.trans hc.symm)
        rw [groupGet_cons_eq _ _ _ _ hk, if_neg hxk, groupGet_cons_eq _ _ _ _ hk]
      · simp only [groupGet_cons_ne _ _ _ _ hk]
        exact ih

theorem groupGet_foldl {α : Type} (key : α → String) (l : List α) :
    ∀ (gs : List (String × List α)) (k : String),
      groupGet (l.foldl (addToGroups key) gs) k =
        groupGet gs k ++ l.filter fun y => decide (key y = k) := by
  induction l with
  | nil => intro gs k; simp
  | cons x rest ih =>
    intro gs k
    rw [List.foldl_cons, ih, groupGet_addToGroups, List.filter_cons]
    by_cases h : key x = k
    · simp [h, List.append_assoc]
    · simp [h]

theorem groupGet_groupByKey {α : Type} (key : α → String) (l : List α)
    (k : String) :
    groupGet (groupByKey key l) k = l.filter fun y => decide (key y = k) := by
  unfold groupByKey
  rw [groupGet_foldl, groupGet_nil, List.nil_append]

theorem keys_addToGroups {α : Type} (key : α → String)
    (gs : List (String × List α)) (x : α) :
    (addToGroups key gs x).map Prod.fst =
      if key x ∈ gs.map Prod.fst then gs.map Prod.fst
      else gs.map Prod.fst ++ [key x] := by
  induction gs with
  | nil => simp [addToGroups]
  | cons kv rest ih =>
    obtain ⟨k₀, l₀⟩ := kv
    simp only [addToGroups]
    by_cases h : k₀ = key x
    · simp [h]
    · have hne : key x ≠ k₀ := fun hc => h hc.symm
      by_cases hmem : key x ∈ rest.map Prod.fst
      · simp [h, ih, hmem, hne]
      · simp [h, ih, hmem, hne]

theorem keys_nodup_foldl {α : Type} (key : α → String) (l : List α) :
    ∀ gs : List (String × List α),
      (gs.map Prod.fst).Nodup →
        ((l.foldl (addToGroups key) gs).map Prod.fst).Nodup := by
  induction l with
  | nil => intro gs h; simpa using h
  | cons x rest ih =>
    intro gs h
    rw [List.foldl_cons]
    refine ih _ ?_
    rw [keys_addToGroups]
    by_cases hmem : key x ∈ gs.map Prod.fst
    · simpa [hmem] using h
    · rw [if_neg hmem, List.nodup_append]
      refine ⟨h, List.nodup_singleton _, ?_⟩
      intro a ha hax
      rw [List.mem_singleton] at hax
      subst hax
      exact hmem ha

theorem keys_nodup_groupByKey {α : Type} (key : α → String) (l : List α) :
    ((groupByKey key l).map Prod.fst).Nodup :=
  keys_nodup_foldl key l [] (by simp)

theorem mem_keys_foldl {α : Type} (key : α → String) (l : List α) :
    ∀ (gs : List (String × List α)) (k : String),
      (k ∈ (l.foldl (addToGroups key) gs).map Prod.fst ↔
        k ∈ gs.map Prod.fst ∨ k ∈ l.map key) := by
  induction l with
  | nil => intro gs k; simp
  | cons x rest ih =>
    intro gs k
    rw [List.foldl_cons, ih, keys_addToGroups]
    by_cases hmem : key x ∈ gs.map Prod.fst
    · rw [if_pos hmem]
      simp only [List.map_cons, List.mem_cons]
      constructor
      · rintro (h | h)
        · exact Or.inl h
        · exact Or.inr (Or.inr h)
      · rintro (h | h | h)
        · exact Or.inl h
        · exact Or.inl (h ▸ hmem)
        · exact Or.inr h
    · rw [if_neg hmem]
      simp only [List.mem_append, List.mem_singleton, List.map_cons, List.mem_cons]
      tauto

theorem mem_keys_groupByKey {α : Type} (key : α → String) (l : List α)
    (k : String) :
    k ∈ (groupByKey key l).map Prod.fst ↔ k ∈ l.map key := by
  unfold groupByKey
  rw [mem_keys_foldl]
  simp

theorem entry_of_mem_keys {α : Type} (gs : List (String × List α)) (k : String)
    (h : k ∈ gs.map Prod.fst) : (k, groupGet gs k) ∈ gs := by
  induction gs with
  | nil => simp at h
  | cons kv rest ih =>
    obtain ⟨k₀, l₀⟩ := kv
    by_cases hk : k₀ = k
    · subst hk
      rw [groupGet_cons_eq _ _ _ _ rfl]
      exact List.mem_cons_self _ _
    · rw [groupGet_cons_ne _ _ _ _ hk]
      rw [List.map_cons] at h
      rcases List.mem_cons.mp h with h' | h'
      · exact absurd h'.symm hk
      · exact List.mem_cons_of_mem _ (ih h')

theorem entry_eq_groupGet {α : Type} (gs : List (String × List α))
    (k : String) (xs : List α) (hnd : (gs.map Prod.fst).Nodup)
    (h : (k, xs) ∈ gs) : xs = groupGet gs k := by
  induction gs with
  | nil => simp at h
  | cons kv rest ih =>
    obtain ⟨k₀, l₀⟩ := kv
    rw [List.map_cons, List.nodup_cons] at hnd
    rcases List.mem_cons.mp h with h' | h'
    · injection h' with hk hxs
      rw [groupGet_cons_eq _ _ _ _ hk.symm]
      exact hxs
    · have hk : ¬ k₀ = k := by
        intro hc
        subst hc
        exact hnd.1 (by simpa using List.mem_map_of_mem Prod.fst h')
      rw [groupGet_cons_ne _ _ _ _ hk]
      exact ih hnd.2 h'

theorem splitRunsGo_countP (xs : List Int) :
    ∀ (cur : Seg) (segs : List Seg) (n : Int),
      cur.start ≤ cur.stop →
      List.Pairwise (· < ·) (cur.stop :: xs) →
      ((splitRunsGo xs cur segs).countP fun sg =>
          decide (sg.start ≤ n) && decide (n ≤ sg.stop)) =
        (segs.countP fun sg => decide (sg.start ≤ n) && decide (n ≤ sg.stop)) +
          (if (cur.start ≤ n ∧ n ≤ cur.stop) ∨ n ∈ xs then 1 else 0) := by
  induction xs with
  | nil =>
    intro cur segs n hwf _
    rw [splitRunsGo, List.countP_append]
    simp only [List.not_mem_nil, or_false, List.countP_cons, List.countP_nil]
    by_cases h : cur.start ≤ n ∧ n ≤ cur.stop
    · simp [h.1, h.2]
    · rcases not_and_or.mp h with h' | h' <;> simp [h, h']
  | cons x rest ih =>
    intro cur segs n hwf hpw
    have hx : cur.stop < x := (List.pairwise_cons.mp hpw).1 x (List.mem_cons_self _ _)
    have hpw' : List.Pairwise (· < ·) (x :: rest) := (List.pairwise_cons.mp hpw).2
    have hrest : ∀ m ∈ rest, x < m :=
      fun m hm => (List.pairwise_cons.mp hpw').1 m hm
    by_cases h : x = cur.stop + 1
    · rw [splitRunsGo, if_pos h, ih _ _ n (by simp; omega) (by simpa using hpw')]
      congr 1
      by_cases hn : (cur.start ≤ n ∧ n ≤ x) ∨ n ∈ rest
      · rw [if_pos hn]
        rcases hn with hn | hn
        · by_cases hnx : n ≤ cur.stop
          · rw [if_pos (Or.inl ⟨hn.1, hnx⟩)]
          · have hnx' : n = x := by omega
            rw [if_pos (Or.inr (hnx' ▸ List.mem_cons_self x rest))]
        · rw [if_pos (Or.inr (List.mem_cons_of_mem x hn))]
      · have hn' : ¬ ((cur.start ≤ n ∧ n ≤ cur.stop) ∨ n ∈ x :: rest) := by
          rintro (hc | hc)
          · exact hn (Or.inl ⟨hc.1, by omega⟩)
          · rcases List.mem_cons.mp hc with hc | hc
            · exact hn (Or.inl ⟨by omega, by omega⟩)
            · exact hn (Or.inr hc)
        rw [if_neg hn, if_neg hn']
    · rw [splitRunsGo, if_neg h, ih _ _ n (le_refl x) (by simpa using hpw')]
      rw [List.countP_append]
      simp only [List.countP_cons, List.countP_nil, Nat.zero_add]
      have hc : ((fun sg => decide (sg.start ≤ n) && decide (n ≤ sg.stop)) cur) = true
          ↔ (cur.start ≤ n ∧ n ≤ cur.stop) := by
        simp
      by_cases hcur : cur.start ≤ n ∧ n ≤ cur.stop
      · have h1 :
            (if ((fun sg => decide (sg.start ≤ n) && decide (n ≤ sg.stop)) cur) = true
              then 1 else 0) = 1 := if_pos (hc.mpr hcur)
        have h2 : ¬ ((x ≤ n ∧ n ≤ x) ∨ n ∈ rest) := by
          rintro (hx2 | hx2)
          · omega
          · have := hrest n hx2
            omega
        rw [h1, if_neg h2, if_pos (Or.inl hcur)]
      · have h1 :
            (if ((fun sg => decide (sg.start ≤ n) && decide (n ≤ sg.stop)) cur) = true
              then 1 else 0) = 0 := if_neg (fun hcon => hcur (hc.mp hcon))
        rw [h1]
        by_cases hn : (x ≤ n ∧ n ≤ x) ∨ n ∈ rest
        · have hn' : (cur.start ≤ n ∧ n ≤ cur.stop) ∨ n ∈ x :: rest := by
            rcases hn with hn | hn
            · have hnx : n = x := by omega
              exact Or.inr (hnx ▸ List.mem_cons_self x rest)
            · exact Or.inr (List.mem_cons_of_mem x hn)
          rw [if_pos hn, if_pos hn']
        · have hn' : ¬ ((cur.start ≤ n ∧ n ≤ cur.stop) ∨ n ∈ x :: rest) := by
            rintro (hc2 | hc2)
            · exact hcur hc2
            · rcases List.mem_cons.mp hc2 with hc2 | hc2
              · exact hn (Or.inl ⟨by omega, by omega⟩)
              · exact hn (Or.inr hc2)
          rw [if_neg hn, if_neg hn']

theorem splitRuns_countP (L : List Int) (n : Int)
    (hpw : List.Pairwise (· < ·) L) :
    ((splitRuns L).countP fun sg => decide (sg.start ≤ n) && decide (n ≤ sg.stop)) =
      if n ∈ L then 1 else 0 := by
  cases L with
  | nil => simp [splitRuns]
  | cons x rest =>
    rw [splitRuns, splitRunsGo_countP rest _ [] n (le_refl x) (by simpa using hpw)]
    simp only [List.countP_nil, Nat.zero_add, List.mem_cons]
    by_cases h : (x ≤ n ∧ n ≤ x) ∨ n ∈ rest
    · have h' : n = x ∨ n ∈ rest := by
        rcases h with h | h
        · exact Or.inl (by omega)
        · exact Or.inr h
      rw [if_pos h, if_pos h']
    · have h' : ¬ (n = x ∨ n ∈ rest) := by
        rintro (hc | hc)
        · exact h (Or.inl (by omega))
        · exact h (Or.inr hc)
      rw [if_neg h, if_neg h']

theorem splitRunsGo_structure (xs : List Int) :
    ∀ (cur : Seg) (segs : List Seg),
      List.Pairwise (fun a b => a.stop + 1 < b.start) (segs ++ [cur]) →
      (∀ sg ∈ segs ++ [cur], sg.start ≤ sg.stop) →
      List.Pairwise (· < ·) (cur.stop :: xs) →
      (List.Pairwise (fun a b => a.stop + 1 < b.start) (splitRunsGo xs cur segs) ∧
        ∀ sg ∈ splitRunsGo xs cur segs, sg.start ≤ sg.stop) := by
  induction xs with
  | nil =>
    intro cur segs h1 h2 _
    rw [splitRunsGo]
    exact ⟨h1, h2⟩
  | cons x rest ih =>
    intro cur segs h1 h2 hpw
    have hx : cur.stop < x := (List.pairwise_cons.mp hpw).1 x (List.mem_cons_self _ _)
    have hpw' : List.Pairwise (· < ·) (x :: rest) := (List.pairwise_cons.mp hpw).2
    by_cases h : x = cur.stop + 1
    · rw [splitRunsGo, if_pos h]
      apply ih
      · rw [List.pairwise_append] at h1 ⊢
        refine ⟨h1.1, List.pairwise_singleton _ _, ?_⟩
        intro a ha b hb
        rw [List.mem_singleton] at hb
        subst hb
        exact h1.2.2 a ha cur (List.mem_singleton_self _)
      · intro sg hsg
        rcases List.mem_append.mp hsg with hsg | hsg
        · exact h2 sg (List.mem_append_left _ hsg)
        · rw [List.mem_singleton] at hsg
          subst hsg
          have := h2 cur (List.mem_append_right _ (List.mem_singleton_self _))
          simp only [Seg.mk.injEq]
          omega
      · simpa using hpw'
    · rw [splitRunsGo, if_neg h]
      apply ih
      · rw [List.pairwise_append]
        refine ⟨h1, List.pairwise_singleton _ _, ?_⟩
        intro a ha b hb
        rw [List.mem_singleton] at hb
        subst hb
        rcases List.mem_append.mp ha with ha | ha
        · have hgap : a.stop + 1 < cur.start :=
            (List.pairwise_append.mp h1).2.2 a ha cur (List.mem_singleton_self _)
          have hcwf : cur.start ≤ cur.stop :=
            h2 cur (List.mem_append_right _ (List.mem_singleton_self _))
          show a.stop + 1 < x
          omega
        · rw [List.mem_singleton] at ha
          subst ha
          show a.stop + 1 < x
          omega
      · intro sg hsg
        rcases List.mem_append.mp hsg with hsg | hsg
        · exact h2 sg hsg
        · rw [List.mem_singleton] at hsg
          subst hsg
          exact le_refl x
      · simpa using hpw'

theorem splitRuns_structure (L : List Int) (hpw : List.Pairwise (· < ·) L) :
    List.Pairwise (fun a b => a.stop + 1 < b.start) (splitRuns L) ∧
      ∀ sg ∈ splitRuns L, sg.start ≤ sg.stop := by
  cases L with
  | nil => simp [splitRuns]
  | cons x rest =>
    rw [splitRuns]
    exact splitRunsGo_structure rest _ [] (by simp) (by simp) (by simpa using hpw)

theorem splitRuns_mem_of_covers (L : List Int) (sg : Seg) (n : Int)
    (hpw : List.Pairwise (· < ·) L) (hsg : sg ∈ splitRuns L)
    (h1 : sg.start ≤ n) (h2 : n ≤ sg.stop) : n ∈ L := by
  by_contra hn
  have hcount := splitRuns_countP L n hpw
  rw [if_neg hn] at hcount
  have hpos : 0 < (splitRuns L).countP
      fun s => decide (s.start ≤ n) && decide (n ≤ s.stop) :=
    List.countP_pos_iff.mpr ⟨sg, hsg, by simp [h1, h2]⟩
  omega

theorem splitRuns_stop_succ_not_mem (L : List Int) (sg : Seg)
    (hpw : List.Pairwise (· < ·) L) (hsg : sg ∈ splitRuns L) :
    sg.stop + 1 ∉ L := by
  intro hmem
  obtain ⟨hgap, hwf⟩ := splitRuns_structure L hpw
  have hcount := splitRuns_countP L (sg.stop + 1) hpw
  rw [if_pos hmem] at hcount
  have hpos : 0 < (splitRuns L).countP
      fun s => decide (s.start ≤ sg.stop + 1) && decide (sg.stop + 1 ≤ s.stop) := by
    omega
  obtain ⟨sg', hsg', hcov⟩ := List.countP_pos_iff.mp hpos
  simp only [Bool.and_eq_true, decide_eq_true_eq] at hcov
  have hne : sg ≠ sg' := by
    intro hEq
    subst hEq
    omega
  have hsym : List.Pairwise
      (fun a b => (a.stop + 1 < b.start) ∨ (b.stop + 1 < a.start)) (splitRuns L) :=
    hgap.imp fun h => Or.inl h
  have hrel := List.Pairwise.forall (fun _ _ h => h.symm) hsym hsg hsg' hne
  have hwf1 := hwf sg hsg
  rcases hrel with hrel | hrel
  · omega
  · omega

theorem splitRuns_start_pred_not_mem (L : List Int) (sg : Seg)
    (hpw : List.Pairwise (· < ·) L) (hsg : sg ∈ splitRuns L) :
    sg.start - 1 ∉ L := by
  intro hmem
  obtain ⟨hgap, hwf⟩ := splitRuns_structure L hpw
  have hcount := splitRuns_countP L (sg.start - 1) hpw
  rw [if_pos hmem] at hcount
  have hpos : 0 < (splitRuns L).countP
      fun s => decide (s.start ≤ sg.start - 1) && decide (sg.start - 1 ≤ s.stop) := by
    omega
  obtain ⟨sg', hsg', hcov⟩ := List.countP_pos_iff.mp hpos
  simp only [Bool.and_eq_true, decide_eq_true_eq] at hcov
  have hne : sg ≠ sg' := by
    intro hEq
    subst hEq
    have := hwf sg hsg
    omega
  have hsym : List.Pairwise
      (fun a b => (a.stop + 1 < b.start) ∨ (b.stop + 1 < a.start)) (splitRuns L) :=
    hgap.imp fun h => Or.inl h
  have hrel := List.Pairwise.forall (fun _ _ h => h.symm) hsym hsg hsg' hne
  have hwf1 := hwf sg hsg
  have hwf2 := hwf sg' hsg'
  rcases hrel with hrel | hrel
  · omega
  · omega

theorem splitRunsGo_length (xs : List Int) :
    ∀ (cur : Seg) (segs : List Seg),
      segs.length + 1 ≤ (splitRunsGo xs cur segs).length := by
  induction xs with
  | nil => intro cur segs; simp [splitRunsGo]
  | cons x rest ih =>
    intro cur segs
    rw [splitRunsGo]
    by_cases h : x = cur.stop + 1
    · rw [if_pos h]
      exact ih _ _
    · rw [if_neg h]
      have := ih { start := x, stop := x } (segs ++ [cur])
      simp only [List.length_append, List.length_singleton] at this
      omega

theorem splitRuns_ne_nil (L : List Int) (h : L ≠ []) : splitRuns L ≠ [] := by
  cases L with
  | nil => exact absurd rfl h
  | cons x rest =>
    rw [splitRuns]
    intro hcon
    have := splitRunsGo_length rest { start := x, stop := x } []
    rw [hcon] at this
    simp at this

theorem mem_intRange (a b n : Int) : n ∈ intRange a b ↔ a ≤ n ∧ n ≤ b := by
  simp only [intRange, List.mem_map, List.mem_range]
  constructor
  · rintro ⟨i, hi, rfl⟩
    omega
  · rintro ⟨h1, h2⟩
    refine ⟨(n - a).toNat, by omega, by omega⟩

theorem nodup_intRange (a b : Int) : (intRange a b).Nodup := by
  unfold intRange
  refine List.Nodup.map ?_ (List.nodup_range _)
  intro i j h
  have hij : a + (i : Int) = a + (j : Int) := h
  omega

theorem mem_existingSeats (dom : String → Int → Option String) (rowLabel : String)
    (a b n : Int) (sec : String) :
    (n, sec) ∈ existingSeats dom rowLabel a b ↔
      a ≤ n ∧ n ≤ b ∧ dom rowLabel n = some sec := by
  simp only [existingSeats, List.mem_filterMap, Option.map_eq_some']
  constructor
  · rintro ⟨i, hi, s, hs, heq⟩
    injection heq with h1 h2
    subst h1
    subst h2
    obtain ⟨ha, hb⟩ := (mem_intRange a b i).mp hi
    exact ⟨ha, hb, hs⟩
  · rintro ⟨h1, h2, h3⟩
    exact ⟨n, (mem_intRange a b n).mpr ⟨h1, h2⟩, sec, h3, rfl⟩

theorem map_fst_existingSeats_sublist (dom : String → Int → Option String)
    (rowLabel : String) (a b : Int) :
    ((existingSeats dom rowLabel a b).map Prod.fst).Sublist (intRange a b) := by
  unfold existingSeats
  induction intRange a b with
  | nil => simp
  | cons i rest ih =>
    rw [List.filterMap_cons]
    cases h : (dom rowLabel i).map fun sec => (i, sec) with
    | none => exact ih.cons i
    | some p =>
      obtain ⟨s, hs, rfl⟩ := Option.map_eq_some'.mp h
      rw [List.map_cons]
      exact ih.cons₂ i

theorem nodup_map_fst_existingSeats (dom : String → Int → Option String)
    (rowLabel : String) (a b : Int) :
    ((existingSeats dom rowLabel a b).map Prod.fst).Nodup :=
  (map_fst_existingSeats_sublist dom rowLabel a b).nodup (nodup_intRange a b)

theorem entry_facts (dom : String → Int → Option String) (rowLabel : String)
    (a b : Int) (kv : String × List (Int × String))
    (hkv : kv ∈ groupByKey Prod.snd (existingSeats dom rowLabel a b)) :
    List.Pairwise (· < ·) (List.insertionSort (· ≤ ·) (kv.2.map Prod.fst)) ∧
    ∀ n : Int, (n ∈ List.insertionSort (· ≤ ·) (kv.2.map Prod.fst) ↔
      a ≤ n ∧ n ≤ b ∧ dom rowLabel n = some kv.1) := by
  have hval : kv.2 = (existingSeats dom rowLabel a b).filter
      fun y => decide (y.2 = kv.1) := by
    have h1 : (kv.1, kv.2) ∈ groupByKey Prod.snd (existingSeats dom rowLabel a b) := by
      rw [Prod.mk.eta]
      exact hkv
    have h2 := entry_eq_groupGet _ _ _ (keys_nodup_groupByKey _ _) h1
    rw [h2, groupGet_groupByKey]
  have hperm : (List.insertionSort (· ≤ ·) (kv.2.map Prod.fst)).Perm
      (kv.2.map Prod.fst) := List.perm_insertionSort _ _
  have hnodup : (kv.2.map Prod.fst).Nodup := by
    rw [hval]
    exact (List.Sublist.map Prod.fst (List.filter_sublist _)).nodup
      (nodup_map_fst_existingSeats dom rowLabel a b)
  have hsorted : List.Sorted (· ≤ ·)
      (List.insertionSort (· ≤ ·) (kv.2.map Prod.fst)) :=
    List.sorted_insertionSort _ _
  refine ⟨hsorted.lt_of_le (hperm.nodup_iff.mpr hnodup), ?_⟩
  intro n
  rw [hperm.mem_iff]
  constructor
  · intro hn
    obtain ⟨y, hy, hyn⟩ := List.mem_map.mp hn
    rw [hval] at hy
    obtain ⟨hyex, hysec⟩ := List.mem_filter.mp hy
    rw [decide_eq_true_eq] at hysec
    obtain ⟨y1, y2⟩ := y
    dsimp only at hyn hysec
    subst hyn
    subst hysec
    exact (mem_existingSeats dom rowLabel a b _ _).mp hyex
  · rintro ⟨h1, h2, h3⟩
    refine List.mem_map.mpr ⟨(n, kv.1), ?_, rfl⟩
    rw [hval]
    exact List.mem_filter.mpr
      ⟨(mem_existingSeats dom rowLabel a b n kv.1).mpr ⟨h1, h2, h3⟩, by simp⟩

theorem countP_flatMap {α β : Type} (l : List α) (f : α → List β) (p : β → Bool) :
    (l.flatMap f).countP p = (l.map fun x => (f x).countP p).sum := by
  induction l with
  | nil => simp
  | cons x rest ih => simp [List.flatMap_cons, List.countP_append, ih]

theorem sum_map_ite_key {α : Type} (E : List (String × α)) (k : String) :
    (E.map fun kv => if kv.1 = k then 1 else 0).sum = (E.map Prod.fst).count k := by
  induction E with
  | nil => simp
  | cons kv rest ih =>
    rw [List.map_cons, List.sum_cons, ih, List.map_cons, List.count_cons]
    by_cases h : kv.1 = k <;> simp [h, Nat.add_comm]

theorem findSeatSegments_countP (dom : String → Int → Option String)
    (rowLabel : String) (a b : Int) (n : Int) :
    ((findSeatSegments dom rowLabel a b).countP
        fun sg => decide (sg.start ≤ n) && decide (n ≤ sg.stop)) =
      if a ≤ n ∧ n ≤ b ∧ (dom rowLabel n).isSome then 1 else 0 := by
  unfold findSeatSegments
  rw [countP_flatMap]
  by_cases hgood : a ≤ n ∧ n ≤ b ∧ (dom rowLabel n).isSome
  · obtain ⟨h1, h2, h3⟩ := hgood
    obtain ⟨s0, hs0⟩ := Option.isSome_iff_exists.mp h3
    have hmemex : (n, s0) ∈ existingSeats dom rowLabel a b :=
      (mem_existingSeats dom rowLabel a b n s0).mpr ⟨h1, h2, hs0⟩
    have hkeys : s0 ∈ (groupByKey Prod.snd (existingSeats dom rowLabel a b)).map
        Prod.fst :=
      (mem_keys_groupByKey _ _ _).mpr (List.mem_map.mpr ⟨(n, s0), hmemex, rfl⟩)
    have hcongr :
        ((groupByKey Prod.snd (existingSeats dom rowLabel a b)).map fun kv =>
            (splitRuns (List.insertionSort (· ≤ ·) (kv.2.map Prod.fst))).countP
              fun sg => decide (sg.start ≤ n) && decide (n ≤ sg.stop)) =
          (groupByKey Prod.snd (existingSeats dom rowLabel a b)).map fun kv =>
            if kv.1 = s0 then 1 else 0 := by
      refine List.map_congr_left fun kv hkv => ?_
      obtain ⟨hpw, hmem⟩ := entry_facts dom rowLabel a b kv hkv
      rw [splitRuns_countP _ n hpw]
      by_cases hk : kv.1 = s0
      · rw [if_pos ((hmem n).mpr ⟨h1, h2, hk ▸ hs0⟩), if_pos hk]
      · rw [if_neg ?_, if_neg hk]
        intro hcon
        obtain ⟨_, _, hd⟩ := (hmem n).mp hcon
        rw [hs0] at hd
        exact hk (Option.some.inj hd).symm
    rw [hcongr, sum_map_ite_key,
      List.count_eq_one_of_mem (keys_nodup_groupByKey _ _) hkeys,
      if_pos ⟨h1, h2, h3⟩]
  · rw [if_neg hgood]
    have hcongr :
        ((groupByKey Prod.snd (existingSeats dom rowLabel a b)).map fun kv =>
            (splitRuns (List.insertionSort (· ≤ ·) (kv.2.map Prod.fst))).countP
              fun sg => decide (sg.start ≤ n) && decide (n ≤ sg.stop)) =
          (groupByKey Prod.snd (existingSeats dom rowLabel a b)).map fun _ => 0 := by
      refine List.map_congr_left fun kv hkv => ?_
      obtain ⟨hpw, hmem⟩ := entry_facts dom rowLabel a b kv hkv
      rw [splitRuns_countP _ n hpw]
      rw [if_neg ?_]
      intro hcon
      obtain ⟨ha, hb, hd⟩ := (hmem n).mp hcon
      exact hgood ⟨ha, hb, by rw [hd]; rfl⟩
    rw [hcongr]
    simp

theorem findSeatSegments_segment_facts (dom : String → Int → Option String)
    (rowLabel : String) (a b : Int) (sg : Seg)
    (hsg : sg ∈ findSeatSegments dom rowLabel a b) :
    sg.start ≤ sg.stop ∧
    (∀ n, sg.start ≤ n → n ≤ sg.stop →
        a ≤ n ∧ n ≤ b ∧ dom rowLabel n = dom rowLabel sg.start) ∧
    (sg.stop + 1 ≤ b → dom rowLabel (sg.stop + 1) ≠ dom rowLabel sg.stop) ∧
    (a ≤ sg.start - 1 → dom rowLabel (sg.start - 1) ≠ dom rowLabel sg.start) := by
  unfold findSeatSegments at hsg
  obtain ⟨kv, hkv, hsg'⟩ := List.mem_flatMap.mp hsg
  obtain ⟨hpw, hmem⟩ := entry_facts dom rowLabel a b kv hkv
  have hwf : sg.start ≤ sg.stop := (splitRuns_structure _ hpw).2 sg hsg'
  have hspan : ∀ n, sg.start ≤ n → n ≤ sg.stop →
      a ≤ n ∧ n ≤ b ∧ dom rowLabel n = some kv.1 := fun n hn1 hn2 =>
    (hmem n).mp (splitRuns_mem_of_covers _ sg n hpw hsg' hn1 hn2)
  have hstartdom : dom rowLabel sg.start = some kv.1 :=
    (hspan sg.start (le_refl _) hwf).2.2
  refine ⟨hwf, ?_, ?_, ?_⟩
  · intro n hn1 hn2
    obtain ⟨ha, hb, hd⟩ := hspan n hn1 hn2
    exact ⟨ha, hb, by rw [hd, hstartdom]⟩
  · intro hble hcon
    have hstopdom : dom rowLabel sg.stop = some kv.1 :=
      (hspan sg.stop hwf (le_refl _)).2.2
    have hmem' : sg.stop + 1 ∈ List.insertionSort (· ≤ ·) (kv.2.map Prod.fst) := by
      refine (hmem _).mpr ⟨?_, hble, ?_⟩
      · have := (hspan sg.stop hwf (le_refl _)).1
        omega
      · rw [hcon, hstopdom]
    exact splitRuns_stop_succ_not_mem _ sg hpw hsg' hmem'
  · intro hale hcon
    have hmem' : sg.start - 1 ∈ List.insertionSort (· ≤ ·) (kv.2.map Prod.fst) := by
      refine (hmem _).mpr ⟨hale, ?_, ?_⟩
      · have := (hspan sg.start (le_refl _) hwf).2.1
        omega
      · rw [hcon, hstartdom]
    exact splitRuns_start_pred_not_mem _ sg hpw hsg' hmem'

theorem flatMap_length_pos {α β : Type} (E : List α) (f : α → List β) (e : α)
    (he : e ∈ E) (hf : f e ≠ []) : 1 ≤ (E.flatMap f).length := by
  induction E with
  | nil => simp at he
  | cons x rest ih =>
    rw [List.flatMap_cons, List.length_append]
    rcases List.mem_cons.mp he with hx | hx
    · subst hx
      have := List.length_pos.mpr hf
      omega
    · have := ih hx
      omega

theorem flatMap_length_two {α β : Type} (E : List α) (f : α → List β)
    (e1 e2 : α) (h1 : e1 ∈ E) (h2 : e2 ∈ E) (hne : e1 ≠ e2)
    (hf1 : f e1 ≠ []) (hf2 : f e2 ≠ []) : 2 ≤ (E.flatMap f).length := by
  induction E with
  | nil => simp at h1
  | cons x rest ih =>
    rw [List.flatMap_cons, List.length_append]
    rcases List.mem_cons.mp h1 with hx1 | hx1
    · have h2' : e2 ∈ rest := by
        rcases List.mem_cons.mp h2 with hx2 | hx2
        · exact absurd (hx1.trans hx2.symm) hne
        · exact hx2
      subst hx1
      have ha := List.length_pos.mpr hf1
      have hb := flatMap_length_pos rest f e2 h2' hf2
      omega
    · rcases List.mem_cons.mp h2 with hx2 | hx2
      · subst hx2
        have ha := List.length_pos.mpr hf2
        have hb := flatMap_length_pos rest f e1 hx1 hf1
        omega
      · have := ih hx1 hx2
        omega

theorem findSeatSegments_two_sections_length (dom : String → Int → Option String)
    (rowLabel : String) (a b : Int)
    (hsec : ∃ p ∈ existingSeats dom rowLabel a b,
        ∃ q ∈ existingSeats dom rowLabel a b, p.2 ≠ q.2) :
    1 < (findSeatSegments dom rowLabel a b).length := by
  obtain ⟨p, hp, q, hq, hpq⟩ := hsec
  have hpk : p.2 ∈ (groupByKey Prod.snd (existingSeats dom rowLabel a b)).map
      Prod.fst :=
    (mem_keys_groupByKey _ _ _).mpr (List.mem_map.mpr ⟨p, hp, rfl⟩)
  have hqk : q.2 ∈ (groupByKey Prod.snd (existingSeats dom rowLabel a b)).map
      Prod.fst :=
    (mem_keys_groupByKey _ _ _).mpr (List.mem_map.mpr ⟨q, hq, rfl⟩)
  have he1 := entry_of_mem_keys _ _ hpk
  have he2 := entry_of_mem_keys _ _ hqk
  have hne :
      (p.2, groupGet (groupByKey Prod.snd (existingSeats dom rowLabel a b)) p.2) ≠
        (q.2, groupGet (groupByKey Prod.snd (existingSeats dom rowLabel a b)) q.2) :=
    fun hc => hpq (congrArg Prod.fst hc)
  have hfe : ∀ y : Int × String, y ∈ existingSeats dom rowLabel a b →
      splitRuns (List.insertionSort (· ≤ ·)
        ((groupGet (groupByKey Prod.snd (existingSeats dom rowLabel a b)) y.2).map
          Prod.fst)) ≠ [] := by
    intro y hy
    apply splitRuns_ne_nil
    intro hnil
    have hyin : y ∈ groupGet (groupByKey Prod.snd (existingSeats dom rowLabel a b)) y.2 := by
      rw [groupGet_groupByKey]
      exact List.mem_filter.mpr ⟨hy, by simp⟩
    have hyn : y.1 ∈ List.insertionSort (· ≤ ·)
        ((groupGet (groupByKey Prod.snd (existingSeats dom rowLabel a b)) y.2).map
          Prod.fst) :=
      (List.perm_insertionSort _ _).mem_iff.mpr (List.mem_map.mpr ⟨y, hyin, rfl⟩)
    rw [hnil] at hyn
    simp at hyn
  unfold findSeatSegments
  have h2 := flatMap_length_two
    (groupByKey Prod.snd (existingSeats dom rowLabel a b))
    (fun kv => splitRuns (List.insertionSort (· ≤ ·) (kv.2.map Prod.fst)))
    _ _ he1 he2 hne (hfe p hp) (hfe q hq)
  omega

/-- C4: whenever the existing seats of a candidate run fall in more than one
section of the row, the run is partitioned into one output segment per
contiguous same-section sub-run, and every rendered element is tagged
data-split-group true and carries the full candidate span in
data-original-start and data-original-end (the isMultiSegment tag and
originalRange of the detail layer).  The partition is stated by: every
addressable seat of the span is covered by exactly one segment, each
segment is a well-formed run of existing seats of one section inside the
span, and no segment can be extended by one seat on either side without
leaving the span or changing section. -/
theorem c4_section_split_tagging_and_partition
    (dom : String → Int → Option String) (rowLabel : String) (group : SeatGroup)
    (hsec : ∃ p ∈ existingSeats dom rowLabel group.startSeat group.endSeat,
        ∃ q ∈ existingSeats dom rowLabel group.startSeat group.endSeat, p.2 ≠ q.2) :
    (∀ el ∈ renderConnectedSeats dom rowLabel group,
        el.splitGroup = true ∧ el.originalStart = some group.startSeat ∧
          el.originalEnd = some group.endSeat) ∧
    (∀ n : Int,
        ((findSeatSegments dom rowLabel group.startSeat group.endSeat).countP
            fun sg => decide (sg.start ≤ n) && decide (n ≤ sg.stop)) =
          if group.startSeat ≤ n ∧ n ≤ group.endSeat ∧ (dom rowLabel n).isSome
          then 1 else 0) ∧
    (∀ sg ∈ findSeatSegments dom rowLabel group.startSeat group.endSeat,
        sg.start ≤ sg.stop ∧
        (∀ n, sg.start ≤ n → n ≤ sg.stop →
            group.startSeat ≤ n ∧ n ≤ group.endSeat ∧
              dom rowLabel n = dom rowLabel sg.start) ∧
        (sg.stop + 1 ≤ group.endSeat →
            dom rowLabel (sg.stop + 1) ≠ dom rowLabel sg.stop) ∧
        (group.startSeat ≤ sg.start - 1 →
            dom rowLabel (sg.start - 1) ≠ dom rowLabel sg.start)) := by
  refine ⟨?_, fun n => findSeatSegments_countP dom rowLabel _ _ n,
    fun sg hsg => findSeatSegments_segment_facts dom rowLabel _ _ sg hsg⟩
  have hlen := findSeatSegments_two_sections_length dom rowLabel _ _ hsec
  intro el hel
  simp only [renderConnectedSeats] at hel
  obtain ⟨segment, hseg, heq⟩ := List.mem_filterMap.mp hel
  by_cases hs : (dom rowLabel segment.start).isSome = true
  · rw [if_pos hs] at heq
    injection heq with heq
    subst heq
    exact ⟨by simp [hlen], by simp [hlen], by simp [hlen]⟩
  · rw [if_neg hs] at heq
    simp at heq

/-- C4, witness: the theorem applied to the page c4Dom, where in row B the
group 44-46 has seat 44 in section 0, seat 46 in section 1, and no seat
45. -/
theorem c4_section_split_tagging_and_partition_witness :
    (∃ p ∈ existingSeats c4Dom "B" c4Group.startSeat c4Group.endSeat,
        ∃ q ∈ existingSeats c4Dom "B" c4Group.startSeat c4Group.endSeat,
          p.2 ≠ q.2) ∧
    ((∀ el ∈ renderConnectedSeats c4Dom "B" c4Group,
        el.splitGroup = true ∧ el.originalStart = some c4Group.startSeat ∧
          el.originalEnd = some c4Group.endSeat) ∧
    (∀ n : Int,
        ((findSeatSegments c4Dom "B" c4Group.startSeat c4Group.endSeat).countP
            fun sg => decide (sg.start ≤ n) && decide (n ≤ sg.stop)) =
          if c4Group.startSeat ≤ n ∧ n ≤ c4Group.endSeat ∧ (c4Dom "B" n).isSome
          then 1 else 0) ∧
    (∀ sg ∈ findSeatSegments c4Dom "B" c4Group.startSeat c4Group.endSeat,
        sg.start ≤ sg.stop ∧
        (∀ n, sg.start ≤ n → n ≤ sg.stop →
            c4Group.startSeat ≤ n ∧ n ≤ c4Group.endSeat ∧
              c4Dom "B" n = c4Dom "B" sg.start) ∧
        (sg.stop + 1 ≤ c4Group.endSeat →
            c4Dom "B" (sg.stop + 1) ≠ c4Dom "B" sg.stop) ∧
        (c4Group.startSeat ≤ sg.start - 1 →
            c4Dom "B" (sg.start - 1) ≠ c4Dom "B" sg.start))) :=
  ⟨by decide, c4_section_split_tagging_and_partition c4Dom "B" c4Group (by decide)⟩
